import Mathlib

namespace Marionette

/-!
Verification development for the marionette traffic-shaping engine.

The Go sources embedded here are the PFSM engine (two variants: the current
`fsm` implementation and the older `FSM` implementation, both in the same
package), the plugin registry, and the template-grammar `RankerCipher`.

Modelling conventions:
* Go machine integers become `Int`/`Nat`; byte slices become `List Nat` with
  an explicit `< 256` bound where it matters.
* The Go `map[string]interface{}` variable store becomes an association list
  `List (String × Value)` over a closed `Value` sum; an assignment conses the
  new binding, so lookup sees the most recent one, matching map semantics.
* Stateful in-place mutation of the `fsm` struct becomes explicit state
  passing: functions return the updated `Fsm` record.
* The PRNG (`math/rand` seeded from the instance ID) is abstracted as a
  deterministic raw stream `g : Int → Nat → Nat` (seed, draw position); a
  weighted sample consumes exactly one position, mirroring one draw.
* Side-effecting collaborators (plugin bodies, regex engine, the network
  connection, dialing) are abstracted to outcome functions in an `Env`
  record; the engine logic itself is translated from the source.
* Reference-typed shared collaborators (cipher cache, stream set, listener
  map, cell decoder, buffer set) are modelled as opaque reference tokens
  (`Nat`); sharing is token equality.
-/

/-- Closed sum of values stored in / returned from the PFSM variable map.
`methodV` models a Go bound-method value (the current `fsm.Var` returns the
method value `fsm.InstanceID` for key `model_instance_id`; the bound method
is determined by the receiver's instance-ID field, which it captures here).
`decoderV`/`bufferSetV` model references to the cell decoder and the stream
buffer set returned by the older `FSM.Var`. -/
inductive Value where
  | intV : Int → Value
  | strV : String → Value
  | methodV : Int → Value
  | decoderV : Nat → Value
  | bufferSetV : Nat → Value
deriving DecidableEq, Repr

/-- Go type assertion `v.(int)`: succeeds only on a stored integer. -/
def valueAsInt : Value → Option Int
  | .intV n => some n
  | _ => none

/-- PRNG state: the seed it was created from and how many draws were taken.
Models a `*rand.Rand` seeded with the instance ID. -/
structure PRNG where
  seed : Int
  pos : Nat
deriving DecidableEq, Repr

/-- Errors of the engine. `noTransitions`/`retryTransition`/`uuidMismatch`
are the package-level error values; `assertFailed` models a failed
`assert(...)` (a Go panic); the rest model the `fmt.Errorf` cases and
errors returned by collaborators (regex compilation, plugins, dialing). -/
inductive Err where
  | noTransitions
  | retryTransition
  | uuidMismatch
  | assertFailed
  | actionBlockNotFound : String → Err
  | pluginNotFound : String → String → Err
  | regexCompile
  | dialFailed
  | pluginFailure : String → Err
deriving DecidableEq, Repr

/-- One MAR action: party filter, plugin module/method, optional regex
guard (empty string = no guard). Argument lists are irrelevant to the
claims and omitted; plugin outcomes come from the environment. -/
structure Action where
  party : String
  module : String
  method : String
  regex : String
deriving DecidableEq, Repr

/-- A named MAR action block. -/
structure ActionBlockRec where
  name : String
  actions : List Action
deriving DecidableEq, Repr

/-- One MAR transition. Probabilities are abstracted to `Nat` weights
(the claims depend only on the partition into error / non-error and on a
single weighted sample being taken, not on float arithmetic). -/
structure Transition where
  source : String
  destination : String
  actionBlock : String
  probability : Nat
  isError : Bool
deriving DecidableEq, Repr

/-- A parsed MAR document (the external parser's output, per the spec). -/
structure Document where
  uuid : Int
  transport : String
  port : String
  firstSender : String
  transitions : List Transition
  actionBlocks : List ActionBlockRec
deriving DecidableEq, Repr

/-- `doc.ActionBlock(name)`: find the named action block, nil if absent. -/
def Document.actionBlock (doc : Document) (name : String) : Option ActionBlockRec :=
  doc.actionBlocks.find? (fun b => b.name == name)

/-- Modelled from the spec: the `mar` package filter helper selecting the
transitions whose source is the given state (the `mar` package is not under
the sources provided; the spec lists "filter helpers: by source, by party,
by error/non-error, weighted-choice over non-error"). -/
def FilterTransitionsBySource (ts : List Transition) (src : String) : List Transition :=
  ts.filter fun t => t.source == src

/-- Modelled from the spec: the `mar` helper keeping only error transitions. -/
def FilterErrorTransitions (ts : List Transition) : List Transition :=
  ts.filter fun t => t.isError

/-- Modelled from the spec: the `mar` helper keeping only non-error transitions. -/
def FilterNonErrorTransitions (ts : List Transition) : List Transition :=
  ts.filter fun t => !t.isError

/-- Modelled from the spec: the `mar` helper keeping only the actions tagged
with the given party ("both execute the same document but evaluate only
actions tagged with their own party"). -/
def FilterActionsByParty (actions : List Action) (party : String) : List Action :=
  actions.filter fun a => a.party == party

/-- Cumulative weighted pick over a non-empty transition list: walk the
weights, consuming the residual draw. Total, falling through to the last
element. -/
def pickWeighted (r : Nat) : Transition → List Transition → Transition
  | t, [] => t
  | t, u :: rest => if r < t.probability then t else pickWeighted (r - t.probability) u rest

/-- Modelled from the spec: one weighted sample over a transition list using
one raw PRNG draw (`g seed pos`), reduced modulo the total weight. Returns
`none` on an empty list. -/
def chooseOne (g : Int → Nat → Nat) (p : PRNG) : List Transition → Option Transition
  | [] => none
  | t :: rest =>
      let total := (t :: rest).foldl (fun a u => a + u.probability) 0
      some (pickWeighted (g p.seed p.pos % max 1 total) t rest)

/-- Modelled from the spec: `mar.ChooseTransitions`. With no PRNG all
transitions remain candidates; with a PRNG a *single* weighted sample is
taken and the result is a *singleton* list, consuming one draw. -/
def ChooseTransitions (g : Int → Nat → Nat) (ts : List Transition) (rng : Option PRNG) :
    List Transition × Option PRNG :=
  match rng with
  | none => (ts, none)
  | some p =>
      match chooseOne g p ts with
      | none => ([], some p)
      | some t => ([t], some { seed := p.seed, pos := p.pos + 1 })

/-- The environment of outcome functions abstracting side-effecting
collaborators: the raw PRNG stream, the plugin registries of the two engine
variants (current plugins return an optional error, old plugins return
`(success, error)`), the regex engine (compilation success and whether the
connection buffer currently matches), and the dial outcome. -/
structure Env where
  g : Int → Nat → Nat
  plugin : String → String → Option (Option Err)
  pluginOld : String → String → Option (Except Err Bool)
  regexOk : String → Bool
  reMatch : String → Bool
  dialErr : Option Err
  freshID : Int

/-- The PFSM record, covering the fields of both engine variants (the
current `fsm` struct and the older `FSM` struct). `fteCache`, `streamSet`,
`listeners`, `dec`, `bufferSet` are opaque reference tokens for shared
collaborators; `closeFuncs` records acquired close functions by token in
acquisition order; `hasConn` models `conn != nil`. -/
structure Fsm where
  doc : Document
  host : String
  party : String
  fteCache : Nat
  streamSet : Nat
  listeners : Nat
  dec : Nat
  bufferSet : Nat
  hasConn : Bool
  closeFuncs : List Nat
  state : String
  stepN : Nat
  rng : Option PRNG
  transIndex : List (String × List Transition)
  vars : List (String × Value)
  instanceID : Int
deriving DecidableEq, Repr

/-- `fsm.buildTransitions()`: index transitions of a document by source
state, preserving document order within each source. -/
def buildTransitions (doc : Document) : List (String × List Transition) :=
  doc.transitions.foldl
    (fun idx t =>
      match idx.find? (fun e => e.1 == t.source) with
      | some _ => idx.map fun e => if e.1 == t.source then (e.1, e.2 ++ [t]) else e
      | none => idx ++ [(t.source, [t])])
    []

/-- Association-list lookup for the variable map (`fsm.vars[key]`). -/
def varsLookup (vars : List (String × Value)) (key : String) : Option Value :=
  ((vars.find? (fun e => e.1 == key)).map (fun e => e.2))

/-- `fsm.SetVar(key, value)` (same body in both engine variants): assign
into the variable map. -/
def fsmSetVar (f : Fsm) (key : String) (v : Value) : Fsm :=
  { f with vars := (key, v) :: f.vars }

/-- Current `fsm.Var(key)`: the three virtual keys are served from the
receiver's own fields before the map is consulted. Note the source returns
the *method value* `fsm.InstanceID` (no call) for `model_instance_id`,
modelled by `Value.methodV` capturing the receiver's instance-ID field. -/
def fsmVar (f : Fsm) (key : String) : Option Value :=
  if key = "model_instance_id" then some (.methodV f.instanceID)
  else if key = "model_uuid" then some (.intV f.doc.uuid)
  else if key = "party" then some (.strV f.party)
  else varsLookup f.vars key

/-- Older `FSM.Var(key)`: virtual keys served from the receiver's fields
(`InstanceID` is a plain int field there), plus the two multiplexer
references, before the map is consulted. -/
def FSMVar (f : Fsm) (key : String) : Option Value :=
  if key = "model_instance_id" then some (.intV f.instanceID)
  else if key = "model_uuid" then some (.intV f.doc.uuid)
  else if key = "party" then some (.strV f.party)
  else if key = "multiplexer_incoming" then some (.decoderV f.dec)
  else if key = "multiplexer_outgoing" then some (.bufferSetV f.bufferSet)
  else varsLookup f.vars key

/-- Decimal digit run for `strconv.Atoi`: every character must be a digit. -/
def digitsToNatAux : List Char → Nat → Option Nat
  | [], acc => some acc
  | c :: rest, acc =>
      if c.isDigit then digitsToNatAux rest (acc * 10 + (c.toNat - 48)) else none

/-- `strconv.Atoi`: optional sign, then a non-empty digit run. -/
def atoi (s : String) : Option Int :=
  match s.data with
  | [] => none
  | '-' :: rest =>
      if rest.isEmpty then none else (digitsToNatAux rest 0).map (fun n => -(n : Int))
  | '+' :: rest =>
      if rest.isEmpty then none else (digitsToNatAux rest 0).map (fun n => (n : Int))
  | cs => (digitsToNatAux cs 0).map (fun n => (n : Int))

/-- Current `fsm.Port()`: parse the document port as an integer; otherwise
look it up through `fsm.Var` and type-assert to int (a failed assertion
yields the zero value); otherwise return 0. -/
def fsmPort (f : Fsm) : Int :=
  match atoi f.doc.port with
  | some port => port
  | none =>
      match fsmVar f f.doc.port with
      | some v => (valueAsInt v).getD 0
      | none => 0

/-- Current `fsm.evalActions` main loop body: regex-guarded actions are
skipped when the connection buffer does not match; the first evaluated
action's plugin outcome decides (missing plugin is an error; a plugin error
is returned; success returns immediately); an exhausted list yields
`ErrNoTransitions`. -/
def evalActionsLoop (env : Env) : List Action → Except Err Unit
  | [] => .error .noTransitions
  | a :: rest =>
      if a.regex != "" && !(env.regexOk a.regex) then .error .regexCompile
      else if a.regex != "" && !(env.reMatch a.regex) then evalActionsLoop env rest
      else
        match env.plugin a.module a.method with
        | none => .error (.pluginNotFound a.module a.method)
        | some none => .ok ()
        | some (some e) => .error e

/-- Current `fsm.evalActions`: an empty action list succeeds immediately. -/
def evalActions (env : Env) (actions : List Action) : Except Err Unit :=
  if actions.isEmpty then .ok () else evalActionsLoop env actions

/-- Older `FSM.evalAction`: registry lookup then invocation, `(success, error)`. -/
def FSMevalAction (env : Env) (a : Action) : Except Err Bool :=
  match env.pluginOld a.module a.method with
  | none => .error (.pluginNotFound a.module a.method)
  | some r => r

/-- Older `FSM.evalActions` main loop body: guarded skip, then plugin
outcome: error aborts, success returns true, failure falls through to the
next action; an exhausted list reports no match (`false`). -/
def FSMevalActionsLoop (env : Env) : List Action → Except Err Bool
  | [] => .ok false
  | a :: rest =>
      if a.regex != "" && !(env.regexOk a.regex) then .error .regexCompile
      else if a.regex != "" && !(env.reMatch a.regex) then FSMevalActionsLoop env rest
      else
        match FSMevalAction env a with
        | .error e => .error e
        | .ok true => .ok true
        | .ok false => FSMevalActionsLoop env rest

/-- Older `FSM.evalActions`: an empty action list succeeds immediately. -/
def FSMevalActions (env : Env) (actions : List Action) : Except Err Bool :=
  if actions.isEmpty then .ok true else FSMevalActionsLoop env actions

/-- Current `fsm.next` transition-attempt loop: `NULL` action block moves to
the destination; a missing action block is an error; otherwise the party's
actions are evaluated when `eval` is set, an evaluation error aborting the
step; in every remaining case the loop returns this transition's
destination (the source's loop body returns on its first iteration). -/
def fsmNextLoop (env : Env) (f : Fsm) (eval : Bool) : List Transition → Except Err String
  | [] => .ok ""
  | t :: _ =>
      if t.actionBlock = "NULL" then .ok t.destination
      else
        match f.doc.actionBlock t.actionBlock with
        | none => .error (.actionBlockNotFound t.actionBlock)
        | some blk =>
            if eval then
              match evalActions env (FilterActionsByParty blk.actions f.party) with
              | .error e => .error e
              | .ok _ => .ok t.destination
            else .ok t.destination

/-- Current `fsm.next(eval)`: partition the current state's outgoing
transitions into error and non-error, reduce the non-error ones through
`ChooseTransitions` (advancing the PRNG), assert the chosen list non-empty,
append the error transitions, and run the attempt loop. Returns the next
state (or error) together with the advanced PRNG. -/
def fsmNext (env : Env) (f : Fsm) (eval : Bool) : Except Err String × Option PRNG :=
  let ts := FilterTransitionsBySource f.doc.transitions f.state
  let errs := FilterErrorTransitions ts
  let normals := FilterNonErrorTransitions ts
  let cr := ChooseTransitions env.g normals f.rng
  if cr.1.isEmpty then (.error .assertFailed, cr.2)
  else (fsmNextLoop env f eval (cr.1 ++ errs), cr.2)

/-- Older `FSM.next` transition-attempt loop: like the current one, but
the action evaluation returns `(matched, err)` and a non-matching
transition falls through to the next candidate. -/
def FSMnextLoop (env : Env) (f : Fsm) : List Transition → Except Err String
  | [] => .ok ""
  | t :: rest =>
      if t.actionBlock = "NULL" then .ok t.destination
      else
        match f.doc.actionBlock t.actionBlock with
        | none => .error (.actionBlockNotFound t.actionBlock)
        | some blk =>
            match FSMevalActions env (FilterActionsByParty blk.actions f.party) with
            | .error e => .error e
            | .ok true => .ok t.destination
            | .ok false => FSMnextLoop env f rest

/-- Older `FSM.next()`: same selection skeleton as the current `fsm.next`,
with the fall-through attempt loop. -/
def FSMnext (env : Env) (f : Fsm) : Except Err String × Option PRNG :=
  let ts := FilterTransitionsBySource f.doc.transitions f.state
  let errs := FilterErrorTransitions ts
  let normals := FilterNonErrorTransitions ts
  let cr := ChooseTransitions env.g normals f.rng
  if cr.1.isEmpty then (.error .assertFailed, cr.2)
  else (FSMnextLoop env f (cr.1 ++ errs), cr.2)

/-- Replay loop of `fsm.init`: `fsm.state, err = fsm.next(false)` assigns
the returned state (empty on error) before the error check, then asserts
the new state non-empty, for `stepN` iterations. -/
def replayM (env : Env) : Nat → Fsm → Fsm × Option Err
  | 0, f => (f, none)
  | Nat.succ n, f =>
      match fsmNext env f false with
      | (.error e, rng') => ({ f with state := "", rng := rng' }, some e)
      | (.ok s, rng') =>
          if s = "" then ({ f with state := s, rng := rng' }, some .assertFailed)
          else replayM env n { f with state := s, rng := rng' }

/-- Current `fsm.init()`: a no-op while the PRNG exists or no instance ID
is known; otherwise seed the PRNG from the instance ID, restart from
`start`, and replay `stepN` selection steps with `eval = false`. -/
def fsmInitM (env : Env) (f : Fsm) : Fsm × Option Err :=
  match f.rng with
  | some _ => (f, none)
  | none =>
      if f.instanceID = 0 then (f, none)
      else replayM env f.stepN
        { f with rng := some { seed := f.instanceID, pos := 0 }, state := "start" }

/-- Current `fsm.Next(ctx)`: run `init`, then one `next(true)` step; on
success bump the step counter and move to the returned state. The PRNG
advance applies on the error path too (the draw happened in place). -/
def fsmNextM (env : Env) (f : Fsm) : Fsm × Option Err :=
  match fsmInitM env f with
  | (f1, some e) => (f1, some e)
  | (f1, none) =>
      match fsmNext env f1 true with
      | (.error e, rng') => ({ f1 with rng := rng' }, some e)
      | (.ok s, rng') => ({ f1 with rng := rng', state := s, stepN := f1.stepN + 1 }, none)

/-- `fsm.ensureConn`: nothing to do with a connection attached; otherwise
dial (client) / accept (server), abstracted to the environment's outcome. -/
def ensureConnM (env : Env) (f : Fsm) : Fsm × Option Err :=
  if f.hasConn then (f, none)
  else
    match env.dialErr with
    | some e => (f, some e)
    | none => ({ f with hasConn := true }, none)

/-- The `fsm.Execute` loop, fuel-indexed (`none` = fuel ran out with the
loop still running): while not dead, run `Next`; `ErrRetryTransition`
continues the loop, any other error returns, reaching `dead` returns ok. -/
def executeLoop (env : Env) : Nat → Fsm → Option (Except Err Fsm)
  | 0, f => if f.state = "dead" then some (.ok f) else none
  | Nat.succ fuel, f =>
      if f.state = "dead" then some (.ok f)
      else
        match fsmNextM env f with
        | (f', some e) =>
            if e = .retryTransition then executeLoop env fuel f' else some (.error e)
        | (f', none) => executeLoop env fuel f'

/-- `fsm.Execute(ctx)`: ensure a connection, then loop `Next` until dead. -/
def fsmExecute (env : Env) (fuel : Nat) (f : Fsm) : Option (Except Err Fsm) :=
  match ensureConnM env f with
  | (_, some e) => some (.error e)
  | (f1, none) => executeLoop env fuel f1

/-- A run of `k` consecutive `fsm.Next` steps in which every step succeeds
and lands in a named (non-empty) state; returns the resulting machine.
Spec-side predicate used to state replay convergence. -/
def runOk (env : Env) : Nat → Fsm → Option Fsm
  | 0, f => some f
  | Nat.succ k, f =>
      match fsmNextM env f with
      | (f', none) => if f'.state = "" then none else runOk env k f'
      | (_, some _) => none

/-- `fsm.Reset()`: back to `start`, clear the variable map, invoke every
recorded close function in the order the range loop visits them (slice
order = acquisition order), then drop the list. The second component is
the sequence of close-function tokens invoked, in invocation order. -/
def fsmReset (f : Fsm) : Fsm × List Nat :=
  ({ f with state := "start", vars := [], closeFuncs := [] }, f.closeFuncs)

/-- `fsm.Listen()`: the TCP listen itself and the listener-map insert act
on external resources; the model records the acquired listener's close
function being appended to `closeFuncs` (acquisition order). -/
def fsmListen (f : Fsm) (closeId : Nat) : Fsm :=
  { f with closeFuncs := f.closeFuncs ++ [closeId] }

/-- `fsm.Clone(doc)`: build a sibling starting at `start` with the given
document, sharing the cipher cache, stream set and listener map by
reference; rebuild the transition index from the new document; run
`initFirstSender` (fresh instance ID and PRNG when this party is the new
document's first sender, abstracted by `env.freshID`); then copy the
original's variable bindings into the sibling's fresh map. -/
def fsmClone (env : Env) (f : Fsm) (newDoc : Document) : Fsm :=
  let other : Fsm :=
    { doc := newDoc, host := f.host, party := f.party,
      fteCache := f.fteCache, streamSet := f.streamSet, listeners := f.listeners,
      dec := 0, bufferSet := 0, hasConn := false, closeFuncs := [],
      state := "start", stepN := 0, rng := none,
      transIndex := [], vars := [], instanceID := 0 }
  let other := { other with transIndex := buildTransitions newDoc }
  let other :=
    if other.party = newDoc.firstSender then
      { other with instanceID := env.freshID, rng := some { seed := env.freshID, pos := 0 } }
    else other
  { other with vars := f.vars }

/-- Duplicate plugin registration is a panic in the source. -/
inductive RegErr where
  | duplicateRegistration
deriving DecidableEq, Repr

/-- `FindPlugin(module, method)`: registry lookup by key. -/
def FindPlugin {α : Type} (reg : List ((String × String) × α)) (module method : String) :
    Option α :=
  ((reg.find? (fun e => e.1.1 == module && e.1.2 == method)).map (fun e => e.2))

/-- `RegisterPlugin(module, method, fn)`: panic (modelled as an error, the
registry write never happening) when the key is taken, otherwise insert. -/
def RegisterPlugin {α : Type} (reg : List ((String × String) × α)) (module method : String)
    (fn : α) : Except RegErr (List ((String × String) × α)) :=
  match FindPlugin reg module method with
  | some _ => .error .duplicateRegistration
  | none => .ok (((module, method), fn) :: reg)

/-- `big.Int.SetBytes`: big-endian bytes to a natural number. -/
def bytesToNat (data : List Nat) : Nat :=
  data.foldl (fun acc b => acc * 256 + b) 0

/-- Fuel-indexed worker for `big.Int.Bytes` (minimal big-endian digits;
the fuel only bounds the recursion depth). -/
def natToBytesAux : Nat → Nat → List Nat
  | 0, _ => []
  | Nat.succ fuel, n => if n = 0 then [] else natToBytesAux fuel (n / 256) ++ [n % 256]

/-- `big.Int.Bytes`: minimal big-endian byte representation; `0 ↦ []`. -/
def natToBytes (n : Nat) : List Nat :=
  natToBytesAux n n

/-- Ranker error kinds per the spec. -/
inductive RankErr where
  | outOfRange
  | notInLanguage
deriving DecidableEq, Repr

/-- Modelled from the spec: the `fte.DFA` ranker (the `fte` package's DFA
implementation is not under the sources provided). The spec specifies a
bijection between integers `[0, numWords)` and the words of length
`msgLen` of the language, with `unrank` failing out of range and `rank`
failing off the language; words are represented by their ranks, making the
bijection the identity on `[0, numWords)`. -/
structure DFAModel where
  msgLen : Nat
  numWords : Nat
deriving DecidableEq, Repr

/-- Modelled from the spec: `DFA.Unrank` on the abstract word representation. -/
def DFAModel.unrank (d : DFAModel) (r : Nat) : Except RankErr Nat :=
  if r < d.numWords then .ok r else .error .outOfRange

/-- Modelled from the spec: `DFA.Rank` on the abstract word representation. -/
def DFAModel.rank (d : DFAModel) (w : Nat) : Except RankErr Nat :=
  if w < d.numWords then .ok w else .error .notInLanguage

/-- The template-grammar `RankerCipher` of `plugins/tg/ranker.go`. -/
structure RankerCipher where
  key : String
  regex : String
  dfa : DFAModel
deriving DecidableEq, Repr

/-- `RankerCipher.Encrypt`: reinterpret the data as a big integer and
unrank it into a word of the cover language. -/
def RankerCipher.Encrypt (c : RankerCipher) (data : List Nat) : Except RankErr Nat :=
  c.dfa.unrank (bytesToNat data)

/-- `RankerCipher.Decrypt`: rank the covertext and return the big
integer's bytes. -/
def RankerCipher.Decrypt (c : RankerCipher) (w : Nat) : Except RankErr (List Nat) :=
  (c.dfa.rank w).map natToBytes

/-! Shared concrete fixtures for witnesses and counterexamples. -/

/-- A minimal parsed document used as a base for concrete instances. -/
def baseDoc : Document :=
  { uuid := 7, transport := "tcp", port := "8081", firstSender := "client",
    transitions := [], actionBlocks := [] }

/-- A base PFSM instance over `baseDoc`. -/
def baseFsm : Fsm :=
  { doc := baseDoc, host := "h", party := "client", fteCache := 1, streamSet := 2,
    listeners := 3, dec := 4, bufferSet := 5, hasConn := true, closeFuncs := [],
    state := "start", stepN := 0, rng := none, transIndex := [], vars := [],
    instanceID := 0 }

/-- A concrete environment: zero PRNG stream, empty plugin registries,
regexes compile and match, dialing succeeds. -/
def env0 : Env :=
  { g := fun _ _ => 0, plugin := fun _ _ => none, pluginOld := fun _ _ => none,
    regexOk := fun _ => true, reMatch := fun _ => true, dialErr := none, freshID := 9 }

/-! ### C5: Reset -/

/-- A PFSM that acquired two scoped resources, with close tokens 10 then 20. -/
def f5c : Fsm := fsmListen (fsmListen baseFsm 10) 20

/-- C5 counterexample: `Reset()` does not invoke the close functions in
reverse order of acquisition; on a machine that acquired closers 10 then
20, the invocation order is `[10, 20]`, not the reversed `[20, 10]`. -/
theorem reset_not_reverse_counterexample :
    (fsmReset f5c).2 ≠ f5c.closeFuncs.reverse := by decide

/-- C5 (amended): `Reset()` re-initialises the state to `start`, clears the
variable map, invokes the recorded close functions in acquisition order
(first acquired first, the slice order of the range loop), and leaves the
close-function list empty; two `Listen` acquisitions with tokens `a` then
`b` are closed as `a` then `b`. -/
theorem reset_semantics (f : Fsm) :
    (fsmReset f).1.state = "start" ∧ (fsmReset f).1.vars = [] ∧
    (fsmReset f).1.closeFuncs = [] ∧ (fsmReset f).2 = f.closeFuncs ∧
    ∀ a b : Nat, (fsmReset (fsmListen (fsmListen f a) b)).2 = f.closeFuncs ++ [a, b] := by
  refine ⟨rfl, rfl, rfl, rfl, fun a b => ?_⟩
  simp [fsmReset, fsmListen]

/-! ### C6: Clone -/

/-- A PFSM holding one variable binding. -/
def f6 : Fsm := { baseFsm with vars := [("k", Value.intV 7)] }

/-- A second document to clone against. -/
def d6 : Document := { baseDoc with uuid := 8, firstSender := "server" }

/-- C6 counterexample: `Clone(newDoc)` does not give the sibling empty
variables; the source copies every binding of the original into the
sibling's fresh map, so cloning a machine holding a binding yields a
sibling whose variable map is non-empty (it equals the original's). -/
theorem clone_vars_not_empty_counterexample :
    (fsmClone env0 f6 d6).vars ≠ [] ∧ (fsmClone env0 f6 d6).vars = f6.vars := by decide

/-- C6 (amended): `Clone(newDoc)` returns a sibling sharing the original's
cipher cache, stream set and listener map (same references), with state
`start`, step counter zero, a *fresh variable map holding a copy of the
original's bindings* (not an empty one), its document set to `newDoc` and
its transition index rebuilt from `newDoc`; host and party are inherited.
The original record is passed immutably and is not modified. -/
theorem clone_semantics (env : Env) (f : Fsm) (newDoc : Document) :
    (fsmClone env f newDoc).state = "start" ∧
    (fsmClone env f newDoc).stepN = 0 ∧
    (fsmClone env f newDoc).vars = f.vars ∧
    (fsmClone env f newDoc).fteCache = f.fteCache ∧
    (fsmClone env f newDoc).streamSet = f.streamSet ∧
    (fsmClone env f newDoc).listeners = f.listeners ∧
    (fsmClone env f newDoc).doc = newDoc ∧
    (fsmClone env f newDoc).transIndex = buildTransitions newDoc ∧
    (fsmClone env f newDoc).host = f.host ∧
    (fsmClone env f newDoc).party = f.party := by
  unfold fsmClone
  by_cases h : f.party = newDoc.firstSender <;> simp [h]

/-! ### C7: plugin registry -/

/-- C7: plugin registration is one-shot per `(module, method)` key: when
the key is free, `RegisterPlugin` installs the function and `FindPlugin`
then returns it; when the key is taken, `RegisterPlugin` panics (modelled
as `duplicateRegistration`, the registry write never happening). -/
theorem plugin_registration_one_shot {α : Type} (reg : List ((String × String) × α))
    (m meth : String) (fn : α) :
    (FindPlugin reg m meth = none →
      RegisterPlugin reg m meth fn = .ok (((m, meth), fn) :: reg) ∧
      FindPlugin (((m, meth), fn) :: reg) m meth = some fn) ∧
    ∀ g0, FindPlugin reg m meth = some g0 →
      RegisterPlugin reg m meth fn = .error RegErr.duplicateRegistration := by
  constructor
  · intro h
    refine ⟨by simp [RegisterPlugin, h], ?_⟩
    simp [FindPlugin]
  · intro g0 h
    simp [RegisterPlugin, h]

/-- Empty concrete registry over `Nat`-coded plugin functions. -/
def reg7 : List ((String × String) × Nat) := []

/-- C7 witness: registering into the empty registry succeeds and is then
found; re-registering the same key is the duplicate-registration panic. -/
theorem plugin_registration_one_shot_witness :
    (RegisterPlugin reg7 "fte" "send" 7 = .ok ((("fte", "send"), 7) :: reg7) ∧
      FindPlugin ((("fte", "send"), 7) :: reg7) "fte" "send" = some 7) ∧
    RegisterPlugin ((("fte", "send"), 7) :: reg7) "fte" "send" 8 =
      .error RegErr.duplicateRegistration :=
  ⟨(plugin_registration_one_shot reg7 "fte" "send" 7).1 rfl,
   (plugin_registration_one_shot ((("fte", "send"), 7) :: reg7) "fte" "send" 8).2 7 rfl⟩

/-! ### C8: virtual variable keys -/

/-- C8: the keys `model_instance_id`, `model_uuid` and `party` are virtual
in both engine variants: `Var` serves them from the machine's own fields
(the current variant returning the bound method value for the instance ID,
the older variant the integer field), and a prior `SetVar` on any key
never changes what `Var` returns for these keys. -/
theorem virtual_var_keys (f : Fsm) (k key : String) (v : Value)
    (hkey : key = "model_instance_id" ∨ key = "model_uuid" ∨ key = "party") :
    fsmVar (fsmSetVar f k v) key = fsmVar f key ∧
    FSMVar (fsmSetVar f k v) key = FSMVar f key ∧
    fsmVar f "model_instance_id" = some (Value.methodV f.instanceID) ∧
    fsmVar f "model_uuid" = some (Value.intV f.doc.uuid) ∧
    fsmVar f "party" = some (Value.strV f.party) ∧
    FSMVar f "model_instance_id" = some (Value.intV f.instanceID) ∧
    FSMVar f "model_uuid" = some (Value.intV f.doc.uuid) ∧
    FSMVar f "party" = some (Value.strV f.party) := by
  rcases hkey with h | h | h <;> subst h <;>
    exact ⟨rfl, rfl, rfl, rfl, rfl, rfl, rfl, rfl⟩

/-- C8 witness: a `SetVar` storing an integer under `party` does not change
what `Var` returns for `party` on the base machine. -/
theorem virtual_var_keys_witness :
    fsmVar (fsmSetVar baseFsm "party" (Value.intV 3)) "party" = fsmVar baseFsm "party" :=
  (virtual_var_keys baseFsm "party" "party" (Value.intV 3) (Or.inr (Or.inr rfl))).1

/-! ### C4: Port resolution -/

/-- A document whose port is a name that no variable resolves. -/
def d4 : Document := { baseDoc with port := "myport" }

/-- A PFSM over `d4` with an empty variable map. -/
def f4 : Fsm := { baseFsm with doc := d4, vars := [] }

/-- C4: evaluation at the failing input: with port `"myport"` failing
integer parsing and the variable lookup finding nothing, `Port()` silently
returns 0 instead of failing with `PORT_UNRESOLVED` (and the older
`FSM.Port` panics on any named port). -/
theorem port_silent_zero_at_unresolved :
    atoi f4.doc.port = none ∧ fsmVar f4 f4.doc.port = none ∧ fsmPort f4 = 0 := by
  exact ⟨rfl, rfl, rfl⟩

/-! ### C3: Execute loop -/

/-- Helper: a successful `executeLoop` result is always in the dead state. -/
theorem executeLoop_ok_dead (env : Env) :
    ∀ fuel f r, executeLoop env fuel f = some (.ok r) → r.state = "dead" := by
  intro fuel
  induction fuel with
  | zero =>
      intro f r h
      by_cases hd : f.state = "dead"
      · rw [executeLoop, if_pos hd] at h
        obtain rfl : f = r := Except.ok.inj (Option.some.inj h)
        exact hd
      · rw [executeLoop, if_neg hd] at h
        exact Option.noConfusion h
  | succ n ih =>
      intro f r h
      by_cases hd : f.state = "dead"
      · rw [executeLoop, if_pos hd] at h
        obtain rfl : f = r := Except.ok.inj (Option.some.inj h)
        exact hd
      · rw [executeLoop, if_neg hd] at h
        rcases hn : fsmNextM env f with ⟨f1, oe⟩
        rw [hn] at h
        cases oe with
        | none => exact ih f1 r h
        | some e =>
            have h' : (if e = Err.retryTransition then executeLoop env n f1
                else some (Except.error e)) = some (Except.ok r) := h
            by_cases he : e = Err.retryTransition
            · rw [if_pos he] at h'
              exact ih f1 r h'
            · rw [if_neg he] at h'
              exact Except.noConfusion (Option.some.inj h')

/-- C3: `Execute` loops `Next` until the state is dead: a successful
return happens only in the dead state; a `RETRY_TRANSITION` signal from
`Next` makes the loop continue without propagating the error; any other
error from `Next` is returned immediately. -/
theorem execute_loop_error_semantics (env : Env) :
    (∀ fuel f r, fsmExecute env fuel f = some (.ok r) → r.state = "dead") ∧
    (∀ fuel f f1, ¬ f.state = "dead" → fsmNextM env f = (f1, some Err.retryTransition) →
      executeLoop env (fuel + 1) f = executeLoop env fuel f1) ∧
    (∀ fuel f f1 e, ¬ f.state = "dead" → fsmNextM env f = (f1, some e) →
      ¬ e = Err.retryTransition → executeLoop env (fuel + 1) f = some (.error e)) := by
  refine ⟨?_, ?_, ?_⟩
  · intro fuel f r h
    rcases hc : ensureConnM env f with ⟨f1, oe⟩
    simp only [fsmExecute] at h
    rw [hc] at h
    cases oe with
    | none => exact executeLoop_ok_dead env fuel f1 r h
    | some e => exact Except.noConfusion (Option.some.inj h)
  · intro fuel f f1 hd hn
    rw [executeLoop, if_neg hd, hn]
    show (if Err.retryTransition = Err.retryTransition then executeLoop env fuel f1
        else some (Except.error Err.retryTransition)) = executeLoop env fuel f1
    rw [if_pos rfl]
  · intro fuel f f1 e hd hn he
    rw [executeLoop, if_neg hd, hn]
    show (if e = Err.retryTransition then executeLoop env fuel f1
        else some (Except.error e)) = some (Except.error e)
    rw [if_neg he]

/-- A machine already in the dead state. -/
def f3dead : Fsm := { baseFsm with state := "dead" }

/-- A live machine in a state with no outgoing transitions (so `Next`
fails with the assertion error, which is not the retry signal). -/
def f3limbo : Fsm := { baseFsm with state := "limbo" }

/-- C3 witness: executing an already-dead machine returns it and the dead
check holds; a non-retryable error from `Next` is returned immediately. -/
theorem execute_loop_error_semantics_witness :
    f3dead.state = "dead" ∧ executeLoop env0 1 f3limbo = some (.error Err.assertFailed) :=
  ⟨(execute_loop_error_semantics env0).1 1 f3dead f3dead rfl,
   (execute_loop_error_semantics env0).2.2 0 f3limbo f3limbo Err.assertFailed
     (by decide) (by decide) (by decide)⟩

/-! ### C9: empty filtered action list -/

/-- C9: a transition whose action block exists but holds no actions tagged
with this party always succeeds immediately: both variants' `evalActions`
on the empty list return success for *every* environment (so no plugin and
no connection access can be involved), the attempt loop moves to the
transition's destination exactly as it does for a `NULL` action block, and
a full `fsm.next(true)` step over such a transition advances to its
destination. -/
theorem empty_party_actions_succeed (env : Env) (f : Fsm) (t : Transition)
    (blk : ActionBlockRec)
    (hnull : ¬ t.actionBlock = "NULL")
    (hblk : f.doc.actionBlock t.actionBlock = some blk)
    (hempty : FilterActionsByParty blk.actions f.party = []) :
    evalActions env [] = .ok () ∧
    FSMevalActions env [] = .ok true ∧
    (∀ b, fsmNextLoop env f b [t] = .ok t.destination) ∧
    FSMnextLoop env f [t] = .ok t.destination ∧
    (∀ b, fsmNextLoop env f b [{ t with actionBlock := "NULL" }] = .ok t.destination) ∧
    (FilterTransitionsBySource f.doc.transitions f.state = [t] → t.isError = false →
      f.rng = none → fsmNext env f true = (.ok t.destination, none)) := by
  have h3 : ∀ b, fsmNextLoop env f b [t] = .ok t.destination := by
    intro b
    cases b <;> simp [fsmNextLoop, hnull, hblk, hempty, evalActions]
  refine ⟨rfl, rfl, h3, ?_, ?_, ?_⟩
  · simp [FSMnextLoop, hnull, hblk, hempty, FSMevalActions]
  · intro b
    simp [fsmNextLoop]
  · intro hts herr hrng
    have hne : FilterNonErrorTransitions (FilterTransitionsBySource f.doc.transitions f.state)
        = [t] := by
      rw [hts]
      simp [FilterNonErrorTransitions, herr]
    have her : FilterErrorTransitions (FilterTransitionsBySource f.doc.transitions f.state)
        = [] := by
      rw [hts]
      simp [FilterErrorTransitions, herr]
    have h4 := h3 true
    simp [fsmNext, hne, her, hrng, ChooseTransitions, h4]

/-- Concrete fixtures for the C9 witness: a block whose single action is
tagged `server`, attempted by a `client` machine. -/
def act9 : Action := ⟨"server", "io", "puts", ""⟩

/-- Block `b9` holding only the server-tagged action `act9`. -/
def blk9 : ActionBlockRec := { name := "b9", actions := [act9] }

/-- Transition from `start` into `s1` through block `b9`. -/
def t9 : Transition :=
  { source := "start", destination := "s1", actionBlock := "b9", probability := 1,
    isError := false }

/-- Document holding `t9` and `b9`. -/
def d9 : Document := { baseDoc with transitions := [t9], actionBlocks := [blk9] }

/-- Client machine over `d9`. -/
def f9 : Fsm := { baseFsm with doc := d9 }

/-- C9 witness: the client machine steps through `b9` (whose only action
is the server's) straight to `s1`. -/
theorem empty_party_actions_succeed_witness :
    evalActions env0 [] = .ok () ∧ fsmNext env0 f9 true = (.ok "s1", none) :=
  ⟨(empty_party_actions_succeed env0 f9 t9 blk9 (by decide) (by decide) (by decide)).1,
   (empty_party_actions_succeed env0 f9 t9 blk9 (by decide) (by decide) (by decide)).2.2.2.2.2
     (by decide) (by decide) rfl⟩

/-! ### C10: RankerCipher round trip -/

/-- The byte foldl never decreases below its accumulator. -/
theorem byteFoldl_ge (xs : List Nat) :
    ∀ acc : Nat, acc ≤ xs.foldl (fun a b => a * 256 + b) acc := by
  induction xs with
  | nil => intro acc; exact Nat.le_refl acc
  | cons b rest ih =>
      intro acc
      refine Nat.le_trans ?_ (ih (acc * 256 + b))
      calc acc = acc * 1 := (Nat.mul_one acc).symm
        _ ≤ acc * 256 := Nat.mul_le_mul_left acc (by omega)
        _ ≤ acc * 256 + b := Nat.le_add_right _ _

/-- A byte string maps to zero exactly when all its bytes are zero. -/
theorem bytesToNat_zero_iff : ∀ xs : List Nat, bytesToNat xs = 0 ↔ ∀ b ∈ xs, b = 0 := by
  intro xs
  induction xs with
  | nil => simp [bytesToNat]
  | cons b rest ih =>
      have hcons : bytesToNat (b :: rest) = rest.foldl (fun a c => a * 256 + c) b := by
        simp [bytesToNat]
      constructor
      · intro h
        have hb : b ≤ bytesToNat (b :: rest) := by rw [hcons]; exact byteFoldl_ge rest b
        have hb0 : b = 0 := by omega
        have hrest : bytesToNat rest = 0 := by
          rw [hcons, hb0] at h
          exact h
        intro c hc
        rcases List.mem_cons.mp hc with rfl | hc2
        · exact hb0
        · exact (ih.mp hrest) c hc2
      · intro h
        have hb0 : b = 0 := h b (by simp)
        have hrest : bytesToNat rest = 0 := ih.mpr fun c hc => h c (by simp [hc])
        rw [hcons, hb0]
        exact hrest

/-- Appending one byte multiplies by the base and adds the byte. -/
theorem bytesToNat_append (xs : List Nat) (x : Nat) :
    bytesToNat (xs ++ [x]) = bytesToNat xs * 256 + x := by
  simp [bytesToNat, List.foldl_append]

/-- The fuel of `natToBytesAux` is irrelevant once it covers the input. -/
theorem natToBytesAux_stable : ∀ f1 f2 n : Nat, n ≤ f1 → n ≤ f2 →
    natToBytesAux f1 n = natToBytesAux f2 n := by
  intro f1
  induction f1 with
  | zero =>
      intro f2 n h1 h2
      obtain rfl : n = 0 := Nat.le_zero.mp h1
      cases f2 with
      | zero => rfl
      | succ m => simp [natToBytesAux]
  | succ m ih =>
      intro f2 n h1 h2
      by_cases h0 : n = 0
      · subst h0
        cases f2 <;> simp [natToBytesAux]
      · cases f2 with
        | zero => exact absurd (Nat.le_zero.mp h2) h0
        | succ m2 =>
            rw [natToBytesAux, natToBytesAux, if_neg h0, if_neg h0]
            have hdiv : n / 256 < n := Nat.div_lt_self (Nat.pos_of_ne_zero h0) (by omega)
            rw [ih m2 (n / 256) (by omega) (by omega)]

/-- Unfolding equation for `natToBytes` on a positive input. -/
theorem natToBytes_step (n : Nat) (h : ¬ n = 0) :
    natToBytes n = natToBytes (n / 256) ++ [n % 256] := by
  cases n with
  | zero => exact absurd rfl h
  | succ m =>
      rw [natToBytes, natToBytes, natToBytesAux, if_neg h,
        natToBytesAux_stable m ((m + 1) / 256) ((m + 1) / 256)
          (by
            have : (m + 1) / 256 < m + 1 := Nat.div_lt_self (Nat.succ_pos m) (by omega)
            omega)
          (Nat.le_refl _)]

/-- All-satisfying prefixes are dropped through an append. -/
theorem dropWhile_append_all (p : Nat → Bool) :
    ∀ xs ys : List Nat, (∀ a ∈ xs, p a = true) →
      List.dropWhile p (xs ++ ys) = List.dropWhile p ys := by
  intro xs
  induction xs with
  | nil => intro ys _; rfl
  | cons a rest ih =>
      intro ys h
      have ha : p a = true := h a (by simp)
      rw [List.cons_append, List.dropWhile_cons, if_pos ha]
      exact ih ys fun b hb => h b (by simp [hb])

/-- A non-empty `dropWhile` result survives an append on the right. -/
theorem dropWhile_append_stop (p : Nat → Bool) :
    ∀ xs ys c cs, List.dropWhile p xs = c :: cs →
      List.dropWhile p (xs ++ ys) = c :: (cs ++ ys) := by
  intro xs
  induction xs with
  | nil => intro ys c cs h; exact List.noConfusion h
  | cons a rest ih =>
      intro ys c cs h
      by_cases ha : p a = true
      · rw [List.dropWhile_cons, if_pos ha] at h
        rw [List.cons_append, List.dropWhile_cons, if_pos ha]
        exact ih ys c cs h
      · rw [List.dropWhile_cons, if_neg ha] at h
        injection h with h1 h2
        rw [List.cons_append, List.dropWhile_cons, if_neg ha, h1, h2]

/-- Round trip through the big integer drops exactly the leading zero
bytes of a byte string. -/
theorem natToBytes_bytesToNat (data : List Nat) (hb : ∀ b ∈ data, b < 256) :
    natToBytes (bytesToNat data) = data.dropWhile (fun b => b == 0) := by
  refine List.reverseRecOn (motive := fun l =>
      (∀ b ∈ l, b < 256) → natToBytes (bytesToNat l) = l.dropWhile (fun b => b == 0))
    data ?_ ?_ hb
  · intro _
    rfl
  · intro xs x ih hb2
    have hxs : ∀ b ∈ xs, b < 256 := fun b hb3 => hb2 b (by simp [hb3])
    have hx : x < 256 := hb2 x (by simp)
    have ihx := ih hxs
    rw [bytesToNat_append]
    by_cases hv : bytesToNat xs * 256 + x = 0
    · have hm0 : bytesToNat xs = 0 := by omega
      have hx0 : x = 0 := by omega
      have hall : ∀ a ∈ xs, (fun b => b == 0) a = true := by
        intro a ha
        have := (bytesToNat_zero_iff xs).mp hm0 a ha
        simp [this]
      rw [hv, dropWhile_append_all _ xs [x] hall, hx0]
      rfl
    · rw [natToBytes_step _ hv]
      have hdiv : (bytesToNat xs * 256 + x) / 256 = bytesToNat xs := by
        rw [Nat.mul_comm, Nat.mul_add_div (by omega), Nat.div_eq_of_lt hx, Nat.add_zero]
      have hmod : (bytesToNat xs * 256 + x) % 256 = x := by
        rw [Nat.mul_comm, Nat.mul_add_mod, Nat.mod_eq_of_lt hx]
      rw [hdiv, hmod, ihx]
      rcases hdw : xs.dropWhile (fun b => b == 0) with _ | ⟨c, cs⟩
      · have hall := List.dropWhile_eq_nil_iff.mp hdw
        have hm0 : bytesToNat xs = 0 :=
          (bytesToNat_zero_iff xs).mpr fun b hb3 => by simpa using hall b hb3
        have hx0 : ¬ x = 0 := by
          intro h0
          rw [hm0, h0] at hv
          exact hv rfl
        rw [dropWhile_append_all _ xs [x] hall]
        simp [List.dropWhile_cons, hx0]
      · rw [dropWhile_append_stop _ xs [x] c cs hdw]
        exact List.cons_append c cs [x]

/-- C10: for the template-grammar `RankerCipher`, a byte string whose
big-endian integer value lies below the number of length-`msgLen` words of
the DFA language round-trips through `Encrypt` then `Decrypt` up to its
leading zero bytes: the result is the input with leading zeros stripped,
and it is exactly the input whenever the first byte is non-zero (both
directions pass through a big integer). -/
theorem rankercipher_roundtrip (c : RankerCipher) (data : List Nat)
    (hb : ∀ b ∈ data, b < 256) (hlt : bytesToNat data < c.dfa.numWords) :
    (RankerCipher.Encrypt c data).bind (RankerCipher.Decrypt c)
      = .ok (data.dropWhile (fun b => b == 0)) ∧
    ∀ b0 bs, data = b0 :: bs → ¬ b0 = 0 →
      (RankerCipher.Encrypt c data).bind (RankerCipher.Decrypt c) = .ok data := by
  have henc : RankerCipher.Encrypt c data = .ok (bytesToNat data) := by
    unfold RankerCipher.Encrypt DFAModel.unrank
    rw [if_pos hlt]
  have hdec : RankerCipher.Decrypt c (bytesToNat data)
      = .ok (natToBytes (bytesToNat data)) := by
    unfold RankerCipher.Decrypt DFAModel.rank
    rw [if_pos hlt]
    rfl
  have hmain : (RankerCipher.Encrypt c data).bind (RankerCipher.Decrypt c)
      = .ok (data.dropWhile (fun b => b == 0)) := by
    rw [henc]
    show RankerCipher.Decrypt c (bytesToNat data) = _
    rw [hdec, natToBytes_bytesToNat data hb]
  refine ⟨hmain, ?_⟩
  intro b0 bs hdata h0
  rw [hmain, hdata]
  rw [List.dropWhile_cons]
  simp [h0]

/-- Concrete cipher over a DFA slice with 100000 words. -/
def c10 : RankerCipher := { key := "k", regex := "r", dfa := { msgLen := 4, numWords := 100000 } }

/-- C10 witness: `[1, 2]` (value 258, no leading zero) round-trips exactly;
`[0, 3]` (leading zero byte) round-trips to `[3]`. -/
theorem rankercipher_roundtrip_witness :
    (RankerCipher.Encrypt c10 [1, 2]).bind (RankerCipher.Decrypt c10) = .ok [1, 2] ∧
    (RankerCipher.Encrypt c10 [0, 3]).bind (RankerCipher.Decrypt c10) = .ok [3] :=
  ⟨(rankercipher_roundtrip c10 [1, 2] (by decide) (by decide)).2 1 [2] rfl (by decide),
   (rankercipher_roundtrip c10 [0, 3] (by decide) (by decide)).1⟩


/-! ### C1: transition selection -/

/-- Outcome of attempting one candidate transition, per the spec's
selection story: success with a destination, a silent failure that falls
through to the next candidate, or an error aborting the step. -/
inductive AttemptOutcome where
  | success : String → AttemptOutcome
  | failure
  | abort : Err → AttemptOutcome
deriving DecidableEq, Repr

/-- Attempting one transition in the current engine: `NULL` succeeds, a
missing block aborts, and when evaluating, an action-evaluation error
aborts while success moves to the destination. This attempt has no silent
failure: every non-success is an abort. -/
def attemptNew (env : Env) (f : Fsm) (eval : Bool) (t : Transition) : AttemptOutcome :=
  if t.actionBlock = "NULL" then .success t.destination
  else
    match f.doc.actionBlock t.actionBlock with
    | none => .abort (.actionBlockNotFound t.actionBlock)
    | some blk =>
        if eval then
          match evalActions env (FilterActionsByParty blk.actions f.party) with
          | .error e => .abort e
          | .ok _ => .success t.destination
        else .success t.destination

/-- Attempting one transition in the older engine: like `attemptNew`, but
a non-matching evaluation (`ok false`) is a silent fall-through failure. -/
def attemptOld (env : Env) (f : Fsm) (t : Transition) : AttemptOutcome :=
  if t.actionBlock = "NULL" then .success t.destination
  else
    match f.doc.actionBlock t.actionBlock with
    | none => .abort (.actionBlockNotFound t.actionBlock)
    | some blk =>
        match FSMevalActions env (FilterActionsByParty blk.actions f.party) with
        | .error e => .abort e
        | .ok true => .success t.destination
        | .ok false => .failure

/-- The spec's candidate loop: attempt the candidates in order until one
succeeds; a silent failure moves on, an abort stops with the error. -/
def firstSuccess (attempt : Transition → AttemptOutcome) : List Transition → Except Err String
  | [] => .ok ""
  | t :: rest =>
      match attempt t with
      | .success d => .ok d
      | .failure => firstSuccess attempt rest
      | .abort e => .error e

/-- The current attempt loop is the first-success loop over `attemptNew`. -/
theorem fsmNextLoop_eq_firstSuccess (env : Env) (f : Fsm) (eval : Bool) :
    ∀ l, fsmNextLoop env f eval l = firstSuccess (attemptNew env f eval) l := by
  intro l
  cases l with
  | nil => rfl
  | cons t rest =>
      by_cases hB : t.actionBlock = "NULL"
      · simp [fsmNextLoop, firstSuccess, attemptNew, hB]
      · rcases hblk : f.doc.actionBlock t.actionBlock with _ | blk
        · simp [fsmNextLoop, firstSuccess, attemptNew, hB, hblk]
        · cases eval with
          | false => simp [fsmNextLoop, firstSuccess, attemptNew, hB, hblk]
          | true =>
              rcases hev : evalActions env (FilterActionsByParty blk.actions f.party)
                with e | u
              · simp [fsmNextLoop, firstSuccess, attemptNew, hB, hblk, hev]
              · simp [fsmNextLoop, firstSuccess, attemptNew, hB, hblk, hev]

/-- The older attempt loop is the first-success loop over `attemptOld`. -/
theorem FSMnextLoop_eq_firstSuccess (env : Env) (f : Fsm) :
    ∀ l, FSMnextLoop env f l = firstSuccess (attemptOld env f) l := by
  intro l
  induction l with
  | nil => rfl
  | cons t rest ih =>
      by_cases hB : t.actionBlock = "NULL"
      · simp [FSMnextLoop, firstSuccess, attemptOld, hB]
      · rcases hblk : f.doc.actionBlock t.actionBlock with _ | blk
        · simp [FSMnextLoop, firstSuccess, attemptOld, hB, hblk]
        · rcases hev : FSMevalActions env (FilterActionsByParty blk.actions f.party)
            with e | b
          · simp [FSMnextLoop, firstSuccess, attemptOld, hB, hblk, hev]
          · cases b with
            | false => simp [FSMnextLoop, firstSuccess, attemptOld, hB, hblk, hev, ih]
            | true => simp [FSMnextLoop, firstSuccess, attemptOld, hB, hblk, hev]

/-- A weighted sample over a non-empty list always produces a transition. -/
theorem chooseOne_isSome (g : Int → Nat → Nat) (p : PRNG) :
    ∀ ts : List Transition, ts ≠ [] → ∃ t, chooseOne g p ts = some t := by
  intro ts h
  cases ts with
  | nil => exact absurd rfl h
  | cons t rest => exact ⟨_, rfl⟩

/-- C1: at each step, the outgoing transitions of the current state are
partitioned into error and normal transitions; with a PRNG the normal ones
are reduced to a singleton by a single weighted sample (consuming exactly
one draw), without a PRNG they all remain; the error transitions are
appended after the selected candidates; both engine variants then attempt
the candidates in that order until one succeeds, the first success's
destination becoming the next state (`fsm.Next` commits it and bumps the
step counter). -/
theorem next_transition_selection (env : Env) (f : Fsm)
    (hne : FilterNonErrorTransitions (FilterTransitionsBySource f.doc.transitions f.state)
      ≠ []) :
    ∃ chosen rng',
      ChooseTransitions env.g
          (FilterNonErrorTransitions (FilterTransitionsBySource f.doc.transitions f.state))
          f.rng = (chosen, rng') ∧
      (∀ p, f.rng = some p → ∃ t,
        chooseOne env.g p
            (FilterNonErrorTransitions (FilterTransitionsBySource f.doc.transitions f.state))
          = some t ∧ chosen = [t] ∧ rng' = some { seed := p.seed, pos := p.pos + 1 }) ∧
      (f.rng = none →
        chosen = FilterNonErrorTransitions (FilterTransitionsBySource f.doc.transitions f.state)
          ∧ rng' = none) ∧
      (∀ b, fsmNext env f b =
        (firstSuccess (attemptNew env f b)
          (chosen ++ FilterErrorTransitions
            (FilterTransitionsBySource f.doc.transitions f.state)), rng')) ∧
      FSMnext env f =
        (firstSuccess (attemptOld env f)
          (chosen ++ FilterErrorTransitions
            (FilterTransitionsBySource f.doc.transitions f.state)), rng') ∧
      (∀ s r, f.rng.isSome = true → fsmNext env f true = (.ok s, r) →
        fsmNextM env f = ({ f with state := s, stepN := f.stepN + 1, rng := r }, none)) := by
  have hemp : (FilterNonErrorTransitions
      (FilterTransitionsBySource f.doc.transitions f.state)).isEmpty = false := by
    rcases hNE : FilterNonErrorTransitions
        (FilterTransitionsBySource f.doc.transitions f.state) with _ | ⟨a, l⟩
    · exact absurd hNE hne
    · rfl
  rcases hr : f.rng with _ | p
  · refine ⟨FilterNonErrorTransitions (FilterTransitionsBySource f.doc.transitions f.state),
      none, rfl, ?_, ?_, ?_, ?_, ?_⟩
    · intro q hq
      exact Option.noConfusion hq
    · intro _
      exact ⟨rfl, rfl⟩
    · intro b
      have hch : ChooseTransitions env.g
          (FilterNonErrorTransitions (FilterTransitionsBySource f.doc.transitions f.state))
          f.rng
          = (FilterNonErrorTransitions (FilterTransitionsBySource f.doc.transitions f.state),
            none) := by
        rw [hr]
        rfl
      simp only [fsmNext, hch, hemp, Bool.false_eq_true, if_false]
      rw [fsmNextLoop_eq_firstSuccess]
    · have hch : ChooseTransitions env.g
          (FilterNonErrorTransitions (FilterTransitionsBySource f.doc.transitions f.state))
          f.rng
          = (FilterNonErrorTransitions (FilterTransitionsBySource f.doc.transitions f.state),
            none) := by
        rw [hr]
        rfl
      simp only [FSMnext, hch, hemp, Bool.false_eq_true, if_false]
      rw [FSMnextLoop_eq_firstSuccess]
    · intro s r hs _
      exact absurd hs (by simp)
  · obtain ⟨t, ht⟩ := chooseOne_isSome env.g p
      (FilterNonErrorTransitions (FilterTransitionsBySource f.doc.transitions f.state)) hne
    have hch : ChooseTransitions env.g
        (FilterNonErrorTransitions (FilterTransitionsBySource f.doc.transitions f.state))
        (some p) = ([t], some { seed := p.seed, pos := p.pos + 1 }) := by
      simp only [ChooseTransitions, ht]
    refine ⟨[t], some { seed := p.seed, pos := p.pos + 1 }, hch, ?_, ?_, ?_, ?_, ?_⟩
    · intro q hq
      obtain rfl : p = q := Option.some.inj hq
      exact ⟨t, ht, rfl, rfl⟩
    · intro h0
      exact Option.noConfusion h0
    · intro b
      simp only [fsmNext, hr, hch, List.isEmpty_cons, Bool.false_eq_true, if_false]
      rw [fsmNextLoop_eq_firstSuccess]
    · simp only [FSMnext, hr, hch, List.isEmpty_cons, Bool.false_eq_true, if_false]
      rw [FSMnextLoop_eq_firstSuccess]
    · intro s r _ hs
      have hinit : fsmInitM env f = (f, none) := by
        unfold fsmInitM
        rw [hr]
      simp only [fsmNextM, hinit, hs]

/-- Normal and error transitions out of `start` for the C1 witness. -/
def tA : Transition := ⟨"start", "a", "NULL", 1, false⟩

/-- Error transition used by the C1 and C2 witnesses. -/
def tE : Transition := ⟨"start", "err", "NULL", 0, true⟩

/-- Document with one normal and one error transition out of `start`. -/
def d1 : Document := { baseDoc with transitions := [tA, tE] }

/-- A seeded machine over `d1`. -/
def f1w : Fsm := { baseFsm with doc := d1, rng := some ⟨5, 0⟩, instanceID := 5 }

/-- C1 witness: on the seeded machine over `d1`, the singleton weighted
sample picks the normal transition and one step lands in `"a"` having
consumed exactly one draw. -/
theorem next_transition_selection_witness :
    fsmNext env0 f1w true = (.ok "a", some { seed := 5, pos := 1 }) := by
  obtain ⟨chosen, rng', h1, h2, h3, h4, h5, h6⟩ :=
    next_transition_selection env0 f1w (by decide)
  obtain ⟨t, ht, hch, hrng⟩ := h2 { seed := 5, pos := 0 } rfl
  have hcalc : chooseOne env0.g { seed := 5, pos := 0 }
      (FilterNonErrorTransitions (FilterTransitionsBySource f1w.doc.transitions f1w.state))
      = some tA := by decide
  obtain rfl : tA = t := Option.some.inj (hcalc.symm.trans ht)
  rw [h4 true, hch, hrng]
  rfl

/-! ### C2: replay convergence -/

/-- An attempt loop that succeeded under `eval = true` returns the same
destination under `eval = false`, on any machine agreeing on the document
(the destination and the block lookups do not depend on anything else). -/
theorem fsmNextLoop_false_of_true (env : Env) (p w : Fsm) (hdoc : w.doc = p.doc) :
    ∀ (l : List Transition) (s : String),
      fsmNextLoop env p true l = .ok s → fsmNextLoop env w false l = .ok s := by
  intro l s h
  cases l with
  | nil => exact h
  | cons t rest =>
      by_cases hB : t.actionBlock = "NULL"
      · rw [fsmNextLoop, if_pos hB] at h ⊢
        exact h
      · rw [fsmNextLoop, if_neg hB] at h ⊢
        rw [hdoc]
        rcases hblk : p.doc.actionBlock t.actionBlock with _ | blk
        · rw [hblk] at h
          exact Except.noConfusion h
        · rw [hblk] at h
          have h2 : (if true = true then
              (match evalActions env (FilterActionsByParty blk.actions p.party) with
                | Except.error e => Except.error e
                | Except.ok _ => Except.ok t.destination)
              else Except.ok t.destination) = Except.ok s := h
          rw [if_pos rfl] at h2
          show (if false = true then
              (match evalActions env (FilterActionsByParty blk.actions w.party) with
                | Except.error e => Except.error e
                | Except.ok _ => Except.ok t.destination)
              else Except.ok t.destination) = Except.ok s
          rw [if_neg (by simp)]
          rcases hev : evalActions env (FilterActionsByParty blk.actions p.party) with e | u
          · rw [hev] at h2
            exact Except.noConfusion h2
          · rw [hev] at h2
            exact h2

/-- A successful `next(true)` step is reproduced by `next(false)` on any
machine agreeing on document, state and PRNG (the bytes the actions would
touch are irrelevant once the step is known to have succeeded). -/
theorem fsmNext_false_agrees (env : Env) (p w : Fsm) (s : String) (r : Option PRNG)
    (hdoc : w.doc = p.doc) (hstate : w.state = p.state) (hrng : w.rng = p.rng)
    (h : fsmNext env p true = (.ok s, r)) :
    fsmNext env w false = (.ok s, r) := by
  simp only [fsmNext] at h ⊢
  rw [hdoc, hstate, hrng]
  rcases hcr : ChooseTransitions env.g
      (FilterNonErrorTransitions (FilterTransitionsBySource p.doc.transitions p.state))
      p.rng with ⟨chosen, rng2⟩
  rw [hcr] at h
  dsimp only at h ⊢
  by_cases he : chosen.isEmpty = true
  · rw [if_pos he] at h
    exact absurd (congrArg Prod.fst h) (by simp)
  · rw [if_neg he] at h ⊢
    rw [Prod.mk.injEq] at h ⊢
    exact ⟨fsmNextLoop_false_of_true env p w hdoc _ s h.1, h.2⟩

/-- A `next` step on a machine whose PRNG exists leaves a PRNG in place. -/
theorem fsmNext_rng_isSome (env : Env) (f : Fsm) (b : Bool) (res : Except Err String)
    (r : Option PRNG) (hf : f.rng.isSome = true) (h : fsmNext env f b = (res, r)) :
    r.isSome = true := by
  rcases hr : f.rng with _ | p
  · rw [hr] at hf
    exact absurd hf (by simp)
  · simp only [fsmNext, hr] at h
    rcases hco : chooseOne env.g p
        (FilterNonErrorTransitions (FilterTransitionsBySource f.doc.transitions f.state))
      with _ | t
    · simp only [ChooseTransitions, hco, List.isEmpty_nil, if_true] at h
      rw [Prod.mk.injEq] at h
      rw [← h.2]
      rfl
    · simp only [ChooseTransitions, hco, List.isEmpty_cons, Bool.false_eq_true, if_false] at h
      rw [Prod.mk.injEq] at h
      rw [← h.2]
      rfl

/-- Shape of a successful `fsm.Next` on a seeded machine: `init` is a
no-op, the step comes from `next(true)`, and the machine advances state,
step counter and PRNG. -/
theorem fsmNextM_ok_shape (env : Env) (p p1 : Fsm) (hp : p.rng.isSome = true)
    (h : fsmNextM env p = (p1, none)) :
    ∃ s r, fsmNext env p true = (.ok s, r) ∧
      p1 = { p with state := s, stepN := p.stepN + 1, rng := r } := by
  rcases hr : p.rng with _ | q
  · rw [hr] at hp
    exact absurd hp (by simp)
  · have hinit : fsmInitM env p = (p, none) := by
      unfold fsmInitM
      rw [hr]
    simp only [fsmNextM, hinit] at h
    rcases hnx : fsmNext env p true with ⟨res, r⟩
    rw [hnx] at h
    cases res with
    | error e =>
        have h2 : (({ p with rng := r } : Fsm), some e) = (p1, (none : Option Err)) := h
        rw [Prod.mk.injEq] at h2
        exact Option.noConfusion h2.2
    | ok s =>
        have h2 : (({ p with rng := r, state := s, stepN := p.stepN + 1 } : Fsm),
            (none : Option Err)) = (p1, (none : Option Err)) := h
        rw [Prod.mk.injEq] at h2
        exact ⟨s, r, rfl, h2.1.symm⟩

/-- The replay loop of `init`, run on a peer that agrees on document,
state and PRNG, tracks a successful `k`-step run exactly: it ends in the
run's final state with the run's PRNG position, leaving the step counter
untouched. -/
theorem replayM_tracks_run (env : Env) :
    ∀ (k : Nat) (p q w : Fsm), p.rng.isSome = true → runOk env k p = some q →
      w.doc = p.doc → w.state = p.state → w.rng = p.rng →
      ∃ w1, replayM env k w = (w1, none) ∧ w1.state = q.state ∧ w1.rng = q.rng ∧
        w1.stepN = w.stepN ∧ q.stepN = p.stepN + k := by
  intro k
  induction k with
  | zero =>
      intro p q w hp hrun hdoc hstate hrng
      obtain rfl : p = q := Option.some.inj hrun
      exact ⟨w, rfl, hstate, hrng, rfl, rfl⟩
  | succ k ih =>
      intro p q w hp hrun hdoc hstate hrng
      rcases hn : fsmNextM env p with ⟨p1, oe⟩
      rw [runOk, hn] at hrun
      cases oe with
      | some e => exact Option.noConfusion hrun
      | none =>
          have hrun2 : (if p1.state = "" then none else runOk env k p1) = some q := hrun
          by_cases hs0 : p1.state = ""
          · rw [if_pos hs0] at hrun2
            exact Option.noConfusion hrun2
          · rw [if_neg hs0] at hrun2
            obtain ⟨s, r, hnx, rfl⟩ := fsmNextM_ok_shape env p p1 hp hn
            have hs1 : ¬ s = "" := by simpa using hs0
            have hrsome : r.isSome = true :=
              fsmNext_rng_isSome env p true (.ok s) r hp hnx
            have hw : fsmNext env w false = (.ok s, r) :=
              fsmNext_false_agrees env p w s r hdoc hstate hrng hnx
            have hrec := ih { p with state := s, stepN := p.stepN + 1, rng := r } q
              { w with state := s, rng := r } hrsome hrun2 hdoc rfl rfl
            obtain ⟨w1, hrep, h1, h2, h3, h4⟩ := hrec
            have hgoal : replayM env (Nat.succ k) w
                = (if s = "" then ({ w with state := s, rng := r }, some Err.assertFailed)
                   else replayM env k { w with state := s, rng := r }) := by
              rw [replayM, hw]
            have h4a : q.stepN = p.stepN + 1 + k := h4
            have h3a : w1.stepN = w.stepN := h3
            refine ⟨w1, ?_, h1, h2, h3a, by omega⟩
            rw [hgoal, if_neg hs1]
            exact hrep

/-- C2: replay convergence. A PFSM `u` that executed `k` steps before
learning a non-zero instance ID, upon the `init` performed at its next
step (seed PRNG from the ID, state back to `start`, re-run selection `k`
times with `eval = false`), lands in exactly the state, step count, and
PRNG position of a peer that had the same ID (hence the same seeded PRNG)
from step 0 and executed the same `k` steps, each succeeding. -/
theorem replay_convergence (env : Env) (k : Nat) (p q u : Fsm) (idv : Int)
    (hid : ¬ idv = 0)
    (hprng : p.rng = some { seed := idv, pos := 0 })
    (hpstate : p.state = "start") (hpstep : p.stepN = 0)
    (hrun : runOk env k p = some q)
    (hudoc : u.doc = p.doc) (huid : u.instanceID = idv)
    (hurng : u.rng = none) (hustep : u.stepN = k) :
    ∃ w, fsmInitM env u = (w, none) ∧
      w.state = q.state ∧ w.rng = q.rng ∧ w.stepN = q.stepN := by
  have h1 : fsmInitM env u
      = (if u.instanceID = 0 then (u, none)
         else replayM env u.stepN
           { u with rng := some { seed := u.instanceID, pos := 0 }, state := "start" }) := by
    unfold fsmInitM
    rw [hurng]
  have hinit : fsmInitM env u = replayM env u.stepN
      { u with rng := some { seed := u.instanceID, pos := 0 }, state := "start" } := by
    rw [h1, huid, if_neg hid]
  obtain ⟨w1, hrep, h1s, h2r, h3n, h4n⟩ := replayM_tracks_run env k p q
    { u with rng := some { seed := u.instanceID, pos := 0 }, state := "start" }
    (by rw [hprng]; rfl) hrun hudoc hpstate.symm (by rw [huid, hprng])
  refine ⟨w1, ?_, h1s, h2r, ?_⟩
  · rw [← hustep] at hrep
    rw [hinit]
    exact hrep
  · have h3a : w1.stepN = u.stepN := h3n
    omega

/-- Seeded peer over `d1` for the C2 witness. -/
def p2w : Fsm := { baseFsm with doc := d1, rng := some ⟨5, 0⟩, instanceID := 5 }

/-- The peer after one successful step: in `"a"`, one draw consumed. -/
def q2w : Fsm :=
  { baseFsm with doc := d1, rng := some ⟨5, 1⟩, instanceID := 5, state := "a", stepN := 1 }

/-- The late learner: executed one unseeded step, then learned ID 5. -/
def u2w : Fsm := { baseFsm with doc := d1, instanceID := 5, state := "a", stepN := 1 }

/-- C2 witness: after learning ID 5, the late learner's `init` replays one
step and matches the seeded peer's state, step count and PRNG position. -/
theorem replay_convergence_witness :
    ∃ w, fsmInitM env0 u2w = (w, none) ∧
      w.state = q2w.state ∧ w.rng = q2w.rng ∧ w.stepN = q2w.stepN :=
  replay_convergence env0 1 p2w q2w u2w 5 (by decide) rfl rfl rfl (by decide)
    rfl rfl rfl rfl


end Marionette
